import Mathlib

/-!
Verification of a small UDP Rock-Paper-Scissors arbiter (rps-toy).

Shallow embedding of src/rps-toy/src/main.rs:
* `Move`, `Move.fromChar`, `Move.compare`, `Move.display` embed the `Move`
  enum with its `from_char`, `compare` and `Display` implementations.
* `waitStep` / `waitRecvStep` / `runWait` embed the matchmaking waiting
  loop (assignment of the two player address slots).
* `MatchState`, `processRecv`, `scoreTick`, `gameStep`, `runSteps` embed
  one iteration (and runs of iterations) of the timed game loop; wall-clock
  readings (`elapsed`, `tickFires`) are oracle inputs, since time is
  external to the program.  Durations are modelled in nanoseconds;
  `durationSub` returns `none` where Rust's `Duration` subtraction would
  panic on underflow.
* `mkStateMsg` / `broadcastState` embed `broadcast_state`; a "send" is the
  pair (destination address, message string).
Inbound payloads are modelled after the lossy UTF-8 decode, i.e. as the
decoded character list handed to `trim` / `chars().next()`.
-/

namespace RPS

/-- The `Move` enum of the source. -/
inductive Move where
  | Rock
  | Paper
  | Scissors
deriving DecidableEq, Repr

/-- Embeds `Move::from_char`. -/
def Move.fromChar (c : Char) : Option Move :=
  match c with
  | 'r' | 'R' => some Move.Rock
  | 'p' | 'P' => some Move.Paper
  | 's' | 'S' => some Move.Scissors
  | _ => none

/-- Embeds `Move::compare`: 1 if self beats other, -1 if other beats self, 0 on a tie. -/
def Move.compare (a other : Move) : Int :=
  match a, other with
  | Move.Rock, Move.Scissors | Move.Scissors, Move.Paper | Move.Paper, Move.Rock => 1
  | Move.Scissors, Move.Rock | Move.Paper, Move.Scissors | Move.Rock, Move.Paper => -1
  | _, _ => 0

/-- Embeds `impl Display for Move`. -/
def Move.display : Move → String
  | Move.Rock => "Rock"
  | Move.Paper => "Paper"
  | Move.Scissors => "Scissors"

/-- Rust's `char::is_whitespace` (the Unicode White_Space property), used by
`str::trim` on the decoded payload. -/
def rustIsWhitespace (c : Char) : Bool :=
  let n := c.toNat
  n = 9 || n = 10 || n = 11 || n = 12 || n = 13 || n = 32 ||
    n = 133 || n = 160 || n = 5760 || (8192 ≤ n && n ≤ 8202) ||
    n = 8232 || n = 8233 || n = 8239 || n = 8287 || n = 12288

/-- Embeds `str::trim`: drop whitespace from both ends of the decoded payload. -/
def rustTrim (l : List Char) : List Char :=
  (((l.dropWhile rustIsWhitespace).reverse).dropWhile rustIsWhitespace).reverse

/-- Embeds the match-loop payload parse: `msg.trim()`, then
`msg.chars().next().and_then(Move::from_char)`. -/
def parseMove (msg : List Char) : Option Move :=
  match (rustTrim msg).head? with
  | some c => Move.fromChar c
  | none => none

/-- The parse pipeline as the spec words it: after trimming, the first
character selects the move case-insensitively; anything else yields no move. -/
def parseMoveSpec (msg : List Char) : Option Move :=
  match (rustTrim msg).head? with
  | none => none
  | some c =>
    if c = 'r' ∨ c = 'R' then some Move.Rock
    else if c = 'p' ∨ c = 'P' then some Move.Paper
    else if c = 's' ∨ c = 'S' then some Move.Scissors
    else none

/-- Embeds one `Ok((_size, src_addr))` arm of the waiting loop: slot
assignment given the two (optional) player addresses and the source address. -/
def waitStep {α : Type} [DecidableEq α] (p1 p2 : Option α) (src : α) :
    Option α × Option α :=
  if p1 = none then (some src, p2)
  else if p2 = none ∧ some src ≠ p1 then (p1, some src)
  else (p1, p2)

/-- The same arm with the received payload made explicit: the source binds the
size as `_size` and never reads the payload, so the assignment ignores it. -/
def waitRecvStep {α : Type} [DecidableEq α] (p1 p2 : Option α) (src : α)
    (_payload : List Nat) : Option α × Option α :=
  waitStep p1 p2 src

/-- Embeds the waiting loop over a sequence of datagram source addresses:
process datagrams until both slots are filled (then return both addresses,
leaving the rest of the sequence unread); `none` models a loop still waiting. -/
def runWait {α : Type} [DecidableEq α] :
    Option α → Option α → List α → Option (α × α)
  | _, _, [] => none
  | p1, p2, src :: rest =>
    match waitStep p1 p2 src with
    | (some a1, some a2) => some (a1, a2)
    | (some a1, none) => runWait (some a1) none rest
    | (none, q2) => runWait none q2 rest

/-- The mutable game-loop state: current moves and cumulative scores. -/
structure MatchState where
  p1Move : Move
  p2Move : Move
  p1Score : Nat
  p2Score : Nat
deriving DecidableEq, Repr

/-- Embeds the `Ok((size, src_addr))` arm of the game loop: if the sender is a
registered player and the payload parses, overwrite that player's move. -/
def processRecv {α : Type} [DecidableEq α] (p1 p2 : α) (st : MatchState)
    (src : α) (payload : List Char) : MatchState :=
  if src = p1 then
    match parseMove payload with
    | some m => { st with p1Move := m }
    | none => st
  else if src = p2 then
    match parseMove payload with
    | some m => { st with p2Move := m }
    | none => st
  else st

/-- Embeds the per-tick score update: `cmp == 1` adds a point to player 1,
`cmp == -1` adds a point to player 2, otherwise no change. -/
def scoreTick (m1 m2 : Move) (s1 s2 : Nat) : Nat × Nat :=
  let cmp := Move.compare m1 m2
  if cmp = 1 then (s1 + 1, s2)
  else if cmp = -1 then (s1, s2 + 1)
  else (s1, s2)

/-- `Duration::from_micros(500)` in nanoseconds. -/
def tickDuration : Nat := 500000

/-- `Duration::from_secs(20)` in nanoseconds. -/
def totalGameDuration : Nat := 20000000000

/-- `Duration::as_secs`: whole seconds, rounded down. -/
def asSecs (d : Nat) : Nat := d / 1000000000

/-- Rust `Duration` subtraction, which panics on underflow: `none` is the panic. -/
def durationSub (a b : Nat) : Option Nat :=
  if b ≤ a then some (a - b) else none

/-- Embeds the message construction of `broadcast_state` (the two `write!`
calls into the fresh `String`). -/
def mkStateMsg (m1 m2 : Move) (s1 s2 : Nat) (timeLeft : Nat)
    (finalMsg : Option String) : String :=
  let msg := "" ++
    ("Player 1: " ++ Move.display m1 ++ ", Player 2: " ++ Move.display m2 ++
      ", SCORES => Player 1: " ++ Nat.repr s1 ++ ", Player 2: " ++ Nat.repr s2 ++
      " | Time Left: " ++ Nat.repr timeLeft ++ " sec")
  match finalMsg with
  | some m => msg ++ " | " ++ m
  | none => msg

/-- Embeds `broadcast_state`: build the message once, then send it to each
known address; a send is modelled as the pair (address, message). -/
def broadcastState {α : Type} (p1Addr p2Addr : Option α) (m1 m2 : Move)
    (s1 s2 : Nat) (timeLeft : Nat) (finalMsg : Option String) :
    List (α × String) :=
  let msg := mkStateMsg m1 m2 s1 s2 timeLeft finalMsg
  (match p1Addr with
   | some a => [(a, msg)]
   | none => []) ++
  (match p2Addr with
   | some a => [(a, msg)]
   | none => [])

/-- Embeds the terminal result string selection. -/
def resultMsg (s1 s2 : Nat) : String :=
  if s1 > s2 then "Player 1 wins!"
  else if s2 > s1 then "Player 2 wins!"
  else "It\'s a draw!"

/-- The observable outcome of one game-loop iteration: either the loop keeps
running with an updated state (plus the sends it made), or it broadcast the
terminal message and exited. -/
inductive StepResult (α : Type) where
  | running (st : MatchState) (sends : List (α × String))
  | finished (result : String) (sends : List (α × String))

/-- The state after the receive step of one iteration: the received datagram
(if any) is handed to `processRecv`; a would-block or transport error leaves
the state alone. -/
def recvState {α : Type} [DecidableEq α] (p1 p2 : α) (st : MatchState)
    (recv : Option (α × List Char)) : MatchState :=
  match recv with
  | some (src, payload) => processRecv p1 p2 st src payload
  | none => st

/-- The state after the score update of one tick. -/
def tickState (st : MatchState) : MatchState :=
  { st with
    p1Score := (scoreTick st.p1Move st.p2Move st.p1Score st.p2Score).1,
    p2Score := (scoreTick st.p1Move st.p2Move st.p1Score st.p2Score).2 }

/-- Embeds one iteration of the game loop.  `elapsed` is the value of
`start_time.elapsed()` read at the top of the iteration; `recv` is the datagram
(source, decoded payload) the non-blocking receive returned, if any (a
would-block or transport error is `none`: neither touches the state);
`tickFires` is the oracle for `last_tick.elapsed() >= tick_duration`.
The overall `none` models a `Duration`-subtraction panic. -/
def gameStep {α : Type} [DecidableEq α] (p1 p2 : α) (st : MatchState)
    (elapsed : Nat) (recv : Option (α × List Char)) (tickFires : Bool) :
    Option (StepResult α) :=
  if totalGameDuration ≤ elapsed then
    let rm := resultMsg st.p1Score st.p2Score
    some (StepResult.finished rm
      (broadcastState (some p1) (some p2) st.p1Move st.p2Move
        st.p1Score st.p2Score 0 (some rm)))
  else
    let st1 := recvState p1 p2 st recv
    if tickFires then
      let st2 := tickState st1
      match durationSub totalGameDuration elapsed with
      | some remaining =>
        some (StepResult.running st2
          (broadcastState (some p1) (some p2) st2.p1Move st2.p2Move
            st2.p1Score st2.p2Score (asSecs remaining) none))
      | none => none
    else
      some (StepResult.running st1 [])

/-- The wall-clock readings of one game-loop iteration. -/
structure IterInput (α : Type) where
  elapsed : Nat
  recv : Option (α × List Char)
  tickFires : Bool

/-- A run of game-loop iterations: thread the state through `gameStep` until
the inputs are exhausted or the loop exits (the state at exit is returned);
`none` models a panic. -/
def runSteps {α : Type} [DecidableEq α] (p1 p2 : α) :
    MatchState → List (IterInput α) → Option MatchState
  | st, [] => some st
  | st, i :: rest =>
    match gameStep p1 p2 st i.elapsed i.recv i.tickFires with
    | some (StepResult.running st1 _) => runSteps p1 p2 st1 rest
    | some (StepResult.finished _ _) => some st
    | none => none

/-- C1: `compare` is antisymmetric under swap-and-negate, yields 0 on the
diagonal, and realizes exactly the cyclic dominance relation
(Rock beats Scissors, Scissors beats Paper, Paper beats Rock), with the
reversed pairs yielding -1. -/
theorem compare_antisym_cyclic :
    (∀ a b : Move, Move.compare a b = -(Move.compare b a)) ∧
    (∀ a : Move, Move.compare a a = 0) ∧
    Move.compare Move.Rock Move.Scissors = 1 ∧
    Move.compare Move.Scissors Move.Paper = 1 ∧
    Move.compare Move.Paper Move.Rock = 1 ∧
    Move.compare Move.Scissors Move.Rock = -1 ∧
    Move.compare Move.Paper Move.Scissors = -1 ∧
    Move.compare Move.Rock Move.Paper = -1 := by
  refine ⟨fun a b => ?_, fun a => ?_, rfl, rfl, rfl, rfl, rfl, rfl⟩
  · cases a <;> cases b <;> rfl
  · cases a <;> rfl

/-- `from_char` written as the case-insensitive character table of the spec. -/
lemma fromChar_cases (c : Char) :
    Move.fromChar c =
      (if c = 'r' ∨ c = 'R' then some Move.Rock
       else if c = 'p' ∨ c = 'P' then some Move.Paper
       else if c = 's' ∨ c = 'S' then some Move.Scissors
       else none) := by
  unfold Move.fromChar
  split <;> simp_all

/-- The source parse pipeline agrees with the spec-worded one everywhere. -/
lemma parseMove_eq_spec (msg : List Char) : parseMove msg = parseMoveSpec msg := by
  unfold parseMove parseMoveSpec
  cases h : (rustTrim msg).head? with
  | none => rfl
  | some c => exact fromChar_cases c

/-- C6: a payload is parsed by trimming whitespace from the decoded text and
interpreting the first character case-insensitively (r selects Rock, p Paper,
s Scissors); any other first character, or an empty trimmed payload, selects no
move. -/
theorem parse_pipeline_spec :
    (∀ msg : List Char, parseMove msg = parseMoveSpec msg) ∧
    parseMove [' ', 'R', 'x'] = some Move.Rock ∧
    parseMove ['\t', 's'] = some Move.Scissors ∧
    parseMove ['P'] = some Move.Paper ∧
    parseMove ['x'] = none ∧
    parseMove [] = none ∧
    parseMove [' '] = none := by
  refine ⟨parseMove_eq_spec, ?_, ?_, ?_, ?_, ?_, ?_⟩ <;> decide

/-- The waiting-loop step with player-1 slot empty claims it. -/
lemma waitStep_none_left {α : Type} [DecidableEq α] (p2 : Option α) (src : α) :
    waitStep none p2 src = (some src, p2) := by
  simp [waitStep]

/-- The waiting-loop step with only player 2 open: a fresh address claims it,
the player-1 address is ignored. -/
lemma waitStep_some_none {α : Type} [DecidableEq α] (a1 src : α) :
    waitStep (some a1) none src =
      (if src = a1 then (some a1, none) else (some a1, some src)) := by
  by_cases h : src = a1 <;> simp [waitStep, h]

/-- The waiting-loop step with both slots full changes nothing. -/
lemma waitStep_full {α : Type} [DecidableEq α] (a1 a2 src : α) :
    waitStep (some a1) (some a2) src = (some a1, some a2) := by
  simp [waitStep]

/-- Unfolding one datagram of the waiting loop. -/
lemma runWait_cons {α : Type} [DecidableEq α] (p1 p2 : Option α) (src : α)
    (rest : List α) :
    runWait p1 p2 (src :: rest) =
      (match waitStep p1 p2 src with
       | (some a1, some a2) => some (a1, a2)
       | (some a1, none) => runWait (some a1) none rest
       | (none, q2) => runWait none q2 rest) := rfl

/-- The waiting loop only ever returns two distinct addresses, given the
invariant that a filled second slot means a filled, different first slot. -/
lemma runWait_ne {α : Type} [DecidableEq α] :
    ∀ (l : List α) (p1 p2 : Option α),
      (∀ a2, p2 = some a2 → ∃ a1, p1 = some a1 ∧ a1 ≠ a2) →
      ∀ x y, runWait p1 p2 l = some (x, y) → x ≠ y := by
  intro l
  induction l with
  | nil => intro p1 p2 _ x y h; simp [runWait] at h
  | cons src rest ih =>
    intro p1 p2 hinv x y h
    cases p1 with
    | none =>
      have hp2 : p2 = none := by
        cases p2 with
        | none => rfl
        | some a2 => obtain ⟨a1, ha1, _⟩ := hinv a2 rfl; exact absurd ha1 (by simp)
      subst hp2
      rw [runWait_cons, waitStep_none_left] at h
      exact ih (some src) none (by simp) x y h
    | some a1 =>
      cases p2 with
      | none =>
        rw [runWait_cons, waitStep_some_none] at h
        by_cases hs : src = a1
        · rw [if_pos hs] at h
          exact ih (some a1) none (by simp) x y h
        · rw [if_neg hs] at h
          have h2 : (a1, src) = (x, y) := Option.some.inj h
          have hx : a1 = x := congrArg Prod.fst h2
          have hy : src = y := congrArg Prod.snd h2
          subst hx
          subst hy
          exact fun hxy => hs hxy.symm
      | some a2 =>
        rw [runWait_cons, waitStep_full] at h
        have h2 : (a1, a2) = (x, y) := Option.some.inj h
        obtain ⟨a0, ha0, hne⟩ := hinv a2 rfl
        have ha : a1 = a0 := Option.some.inj ha0
        have hx : a1 = x := congrArg Prod.fst h2
        have hy : a2 = y := congrArg Prod.snd h2
        subst hx
        subst hy
        rw [ha]
        exact hne

/-- C4: from datagram sources A, A, B, C (pairwise distinct), matchmaking
assigns exactly A as Player 1 and B as Player 2, C never gets a slot (the loop
returns before reading it), a full pair of slots absorbs any further address,
and the loop only returns two distinct addresses. -/
theorem matchmaker_spec {α : Type} [DecidableEq α] (A B C : α)
    (hAB : A ≠ B) (hAC : A ≠ C) (hBC : B ≠ C) :
    runWait none none [A, A, B, C] = some (A, B) ∧
    (∀ src : α, waitStep (some A) (some B) src = (some A, some B)) ∧
    (∀ (l : List α) (x y : α), runWait none none l = some (x, y) → x ≠ y) := by
  refine ⟨?_, fun src => waitStep_full A B src, ?_⟩
  · rw [runWait_cons, waitStep_none_left]
    show runWait (some A) none [A, B, C] = some (A, B)
    rw [runWait_cons, waitStep_some_none, if_pos rfl]
    show runWait (some A) none [B, C] = some (A, B)
    rw [runWait_cons, waitStep_some_none, if_neg (Ne.symm hAB)]
  · intro l x y h
    exact runWait_ne l none none (by simp) x y h

/-- C4 witness at concrete addresses 0, 1, 2. -/
theorem matchmaker_spec_witness :
    runWait (none : Option Nat) none [0, 0, 1, 2] = some (0, 1) :=
  (matchmaker_spec 0 1 2 (by decide) (by decide) (by decide)).1

/-- C8 counterexample: the waiting loop binds the received size as `_size` and
never reads it, so an empty datagram (payload `[]`) from a fresh address does
register its sender as Player 1, contradicting the claim that an empty
datagram does not register. -/
theorem empty_datagram_registers :
    waitRecvStep (none : Option Nat) none 7 [] = (some 7, none) ∧
    (some 7 : Option Nat) ≠ none := by
  exact ⟨by decide, by decide⟩

/-- C8 amended: during matchmaking a received datagram registers its sender
subject only to slot availability and the distinct-address rule, regardless of
its payload (empty included) — payload contents and size are ignored. -/
theorem matchmaking_registers_any_payload {α : Type} [DecidableEq α]
    (p1 p2 : Option α) (src : α) (payload payload2 : List Nat) :
    waitRecvStep p1 p2 src payload = waitRecvStep p1 p2 src payload2 ∧
    (p1 = none → waitRecvStep p1 p2 src payload = (some src, p2)) ∧
    (∀ a1 : α, p1 = some a1 → p2 = none → src ≠ a1 →
      waitRecvStep p1 p2 src payload = (some a1, some src)) ∧
    (∀ a1 : α, p1 = some a1 → p2 = none → src = a1 →
      waitRecvStep p1 p2 src payload = (some a1, none)) := by
  refine ⟨rfl, ?_, ?_, ?_⟩
  · intro h; subst h; exact waitStep_none_left p2 src
  · intro a1 h1 h2 hne; subst h1; subst h2
    rw [waitRecvStep, waitStep_some_none, if_neg hne]
  · intro a1 h1 h2 heq; subst h1; subst h2
    rw [waitRecvStep, waitStep_some_none, if_pos heq]

/-- Appending to the fresh empty string (Rust's `String::new()`) is identity. -/
lemma empty_string_append (s : String) : "" ++ s = s := by
  cases s with
  | mk data => rfl

/-- The receive step never touches player 1's score. -/
lemma processRecv_p1Score {α : Type} [DecidableEq α] (p1 p2 : α)
    (st : MatchState) (src : α) (payload : List Char) :
    (processRecv p1 p2 st src payload).p1Score = st.p1Score := by
  unfold processRecv
  by_cases h1 : src = p1
  · rw [if_pos h1]; cases hp : parseMove payload <;> rfl
  · rw [if_neg h1]
    by_cases h2 : src = p2
    · rw [if_pos h2]; cases hp : parseMove payload <;> rfl
    · rw [if_neg h2]

/-- The receive step never touches player 2's score. -/
lemma processRecv_p2Score {α : Type} [DecidableEq α] (p1 p2 : α)
    (st : MatchState) (src : α) (payload : List Char) :
    (processRecv p1 p2 st src payload).p2Score = st.p2Score := by
  unfold processRecv
  by_cases h1 : src = p1
  · rw [if_pos h1]; cases hp : parseMove payload <;> rfl
  · rw [if_neg h1]
    by_cases h2 : src = p2
    · rw [if_pos h2]; cases hp : parseMove payload <;> rfl
    · rw [if_neg h2]

/-- The receive phase of an iteration never touches either score. -/
lemma recvState_scores {α : Type} [DecidableEq α] (p1 p2 : α)
    (st : MatchState) (recv : Option (α × List Char)) :
    (recvState p1 p2 st recv).p1Score = st.p1Score ∧
    (recvState p1 p2 st recv).p2Score = st.p2Score := by
  cases recv with
  | none => exact ⟨rfl, rfl⟩
  | some sp =>
    obtain ⟨src, payload⟩ := sp
    exact ⟨processRecv_p1Score p1 p2 st src payload,
      processRecv_p2Score p1 p2 st src payload⟩

/-- One tick gives player 1 at least their old score. -/
lemma scoreTick_fst_ge (m1 m2 : Move) (s1 s2 : Nat) :
    s1 ≤ (scoreTick m1 m2 s1 s2).1 := by
  simp only [scoreTick]
  split_ifs <;> simp

/-- One tick gives player 2 at least their old score. -/
lemma scoreTick_snd_ge (m1 m2 : Move) (s1 s2 : Nat) :
    s2 ≤ (scoreTick m1 m2 s1 s2).2 := by
  simp only [scoreTick]
  split_ifs <;> simp

/-- One tick hands out at most one point in total. -/
lemma scoreTick_sum_le (m1 m2 : Move) (s1 s2 : Nat) :
    (scoreTick m1 m2 s1 s2).1 + (scoreTick m1 m2 s1 s2).2 ≤ s1 + s2 + 1 := by
  simp only [scoreTick]
  split_ifs <;> simp <;> omega

/-- The tick score update is monotone in both scores. -/
lemma tickState_scores_ge (st : MatchState) :
    st.p1Score ≤ (tickState st).p1Score ∧ st.p2Score ≤ (tickState st).p2Score :=
  ⟨scoreTick_fst_ge _ _ _ _, scoreTick_snd_ge _ _ _ _⟩

/-- An iteration whose step keeps the loop running never decreases a score. -/
lemma gameStep_running_scores {α : Type} [DecidableEq α] (p1 p2 : α)
    (st : MatchState) (elapsed : Nat) (recv : Option (α × List Char))
    (tickFires : Bool) (st1 : MatchState) (sends : List (α × String)) :
    gameStep p1 p2 st elapsed recv tickFires =
      some (StepResult.running st1 sends) →
    st.p1Score ≤ st1.p1Score ∧ st.p2Score ≤ st1.p2Score := by
  intro h
  unfold gameStep at h
  by_cases hg : totalGameDuration ≤ elapsed
  · rw [if_pos hg] at h
    simp at h
  · rw [if_neg hg] at h
    have hle : elapsed ≤ totalGameDuration := le_of_lt (not_le.mp hg)
    have hrs := recvState_scores p1 p2 st recv
    cases tickFires with
    | false =>
      simp only [Bool.false_eq_true, if_false, Option.some.injEq,
        StepResult.running.injEq] at h
      rw [← h.1]
      exact ⟨le_of_eq hrs.1.symm, le_of_eq hrs.2.symm⟩
    | true =>
      simp only [if_true, durationSub, if_pos hle, Option.some.injEq,
        StepResult.running.injEq] at h
      rw [← h.1]
      have hts := tickState_scores_ge (recvState p1 p2 st recv)
      exact ⟨le_trans (le_of_eq hrs.1.symm) hts.1,
        le_trans (le_of_eq hrs.2.symm) hts.2⟩

/-- Unfolding one iteration of a run. -/
lemma runSteps_cons {α : Type} [DecidableEq α] (p1 p2 : α) (st : MatchState)
    (i : IterInput α) (rest : List (IterInput α)) :
    runSteps p1 p2 st (i :: rest) =
      (match gameStep p1 p2 st i.elapsed i.recv i.tickFires with
       | some (StepResult.running st1 _) => runSteps p1 p2 st1 rest
       | some (StepResult.finished _ _) => some st
       | none => none) := rfl

/-- Across any run of iterations the cumulative scores never decrease. -/
lemma runSteps_scores {α : Type} [DecidableEq α] (p1 p2 : α) :
    ∀ (l : List (IterInput α)) (st st1 : MatchState),
      runSteps p1 p2 st l = some st1 →
      st.p1Score ≤ st1.p1Score ∧ st.p2Score ≤ st1.p2Score := by
  intro l
  induction l with
  | nil =>
    intro st st1 h
    have : st = st1 := Option.some.inj h
    rw [← this]
    exact ⟨le_refl _, le_refl _⟩
  | cons i rest ih =>
    intro st st1 h
    rw [runSteps_cons] at h
    cases hg : gameStep p1 p2 st i.elapsed i.recv i.tickFires with
    | none => rw [hg] at h; exact absurd h (by simp)
    | some r =>
      cases r with
      | running st2 sends =>
        rw [hg] at h
        have h1 := gameStep_running_scores p1 p2 st i.elapsed i.recv
          i.tickFires st2 sends hg
        have h2 := ih st2 st1 h
        exact ⟨le_trans h1.1 h2.1, le_trans h1.2 h2.2⟩
      | finished res sends =>
        rw [hg] at h
        have : st = st1 := Option.some.inj h
        rw [← this]
        exact ⟨le_refl _, le_refl _⟩

/-- Every send of one `broadcast_state` call carries the one message built
before the sends. -/
lemma broadcastState_mem_msg {α : Type} (p1Addr p2Addr : Option α)
    (m1 m2 : Move) (s1 s2 tl : Nat) (fm : Option String) (x : α × String)
    (hx : x ∈ broadcastState p1Addr p2Addr m1 m2 s1 s2 tl fm) :
    x.2 = mkStateMsg m1 m2 s1 s2 tl fm := by
  cases p1Addr <;> cases p2Addr <;>
    simp only [broadcastState, List.mem_append, List.mem_singleton,
      List.not_mem_nil, List.nil_append, List.append_nil, false_or,
      or_false] at hx <;>
    first
      | (rcases hx with hx | hx <;> rw [hx])
      | rw [hx]

/-- C7: a received datagram changes at most one field of the match state:
scores are never touched; an unregistered sender or an unparseable payload
changes nothing; a parseable payload from a registered player overwrites
exactly that player's move. -/
theorem recv_frame_spec {α : Type} [DecidableEq α] (p1 p2 : α)
    (st : MatchState) (src : α) (payload : List Char) :
    (processRecv p1 p2 st src payload).p1Score = st.p1Score ∧
    (processRecv p1 p2 st src payload).p2Score = st.p2Score ∧
    (src ≠ p1 → src ≠ p2 → processRecv p1 p2 st src payload = st) ∧
    (parseMove payload = none → processRecv p1 p2 st src payload = st) ∧
    (∀ m : Move, src = p1 → parseMove payload = some m →
      processRecv p1 p2 st src payload = { st with p1Move := m }) ∧
    (∀ m : Move, src ≠ p1 → src = p2 → parseMove payload = some m →
      processRecv p1 p2 st src payload = { st with p2Move := m }) ∧
    ((processRecv p1 p2 st src payload).p1Move ≠ st.p1Move →
      (processRecv p1 p2 st src payload).p2Move = st.p2Move) ∧
    ((processRecv p1 p2 st src payload).p2Move ≠ st.p2Move →
      (processRecv p1 p2 st src payload).p1Move = st.p1Move) := by
  refine ⟨processRecv_p1Score p1 p2 st src payload,
    processRecv_p2Score p1 p2 st src payload, ?_, ?_, ?_, ?_, ?_, ?_⟩
  · intro h1 h2
    unfold processRecv
    rw [if_neg h1, if_neg h2]
  · intro hp
    unfold processRecv
    by_cases h1 : src = p1
    · rw [if_pos h1, hp]
    · rw [if_neg h1]
      by_cases h2 : src = p2
      · rw [if_pos h2, hp]
      · rw [if_neg h2]
  · intro m h1 hp
    unfold processRecv
    rw [if_pos h1, hp]
  · intro m h1 h2 hp
    unfold processRecv
    rw [if_neg h1, if_pos h2, hp]
  · unfold processRecv
    by_cases h1 : src = p1
    · rw [if_pos h1]
      cases hp : parseMove payload <;> intro _ <;> rfl
    · rw [if_neg h1]
      by_cases h2 : src = p2
      · rw [if_pos h2]
        cases hp : parseMove payload <;> intro h <;> [rfl; exact absurd rfl h]
      · rw [if_neg h2]
        intro h
        exact absurd rfl h
  · unfold processRecv
    by_cases h1 : src = p1
    · rw [if_pos h1]
      cases hp : parseMove payload <;> intro h <;> [rfl; exact absurd rfl h]
    · rw [if_neg h1]
      by_cases h2 : src = p2
      · rw [if_pos h2]
        cases hp : parseMove payload <;> intro _ <;> rfl
      · rw [if_neg h2]
        intro h
        exact absurd rfl h

/-- C2: a scoring tick gives the point to exactly the winner of `compare` on
the current moves (a tie changes neither score), hands out at most one point,
never decreases a score, the game loop applies exactly this update on a tick,
and over any run of iterations both cumulative scores are non-decreasing. -/
theorem tick_scoring_spec {α : Type} [DecidableEq α] (p1 p2 : α)
    (st : MatchState) (elapsed : Nat) (m1 m2 : Move) (s1 s2 : Nat) :
    (Move.compare m1 m2 = 1 → scoreTick m1 m2 s1 s2 = (s1 + 1, s2)) ∧
    (Move.compare m1 m2 = -1 → scoreTick m1 m2 s1 s2 = (s1, s2 + 1)) ∧
    (Move.compare m1 m2 = 0 → scoreTick m1 m2 s1 s2 = (s1, s2)) ∧
    (m1 = m2 → scoreTick m1 m2 s1 s2 = (s1, s2)) ∧
    s1 ≤ (scoreTick m1 m2 s1 s2).1 ∧
    s2 ≤ (scoreTick m1 m2 s1 s2).2 ∧
    (scoreTick m1 m2 s1 s2).1 + (scoreTick m1 m2 s1 s2).2 ≤ s1 + s2 + 1 ∧
    (elapsed < totalGameDuration →
      gameStep p1 p2 st elapsed none true =
        some (StepResult.running (tickState st)
          (broadcastState (some p1) (some p2) (tickState st).p1Move
            (tickState st).p2Move (tickState st).p1Score (tickState st).p2Score
            (asSecs (totalGameDuration - elapsed)) none))) ∧
    (∀ (l : List (IterInput α)) (st1 : MatchState),
      runSteps p1 p2 st l = some st1 →
      st.p1Score ≤ st1.p1Score ∧ st.p2Score ≤ st1.p2Score) := by
  refine ⟨?_, ?_, ?_, ?_, scoreTick_fst_ge m1 m2 s1 s2,
    scoreTick_snd_ge m1 m2 s1 s2, scoreTick_sum_le m1 m2 s1 s2, ?_, ?_⟩
  · intro h; simp [scoreTick, h]
  · intro h; simp [scoreTick, h]
  · intro h; simp [scoreTick, h]
  · intro h; cases h; cases m1 <;> simp [scoreTick, Move.compare]
  · intro h
    have hg : ¬ totalGameDuration ≤ elapsed := not_le.mpr h
    simp [gameStep, hg, durationSub, le_of_lt h, recvState]
  · exact fun l st1 h => runSteps_scores p1 p2 l st st1 h

/-- C3: once elapsed wall time reaches the match duration, the iteration takes
the terminal branch: the outcome is chosen by comparing the scores, the
terminal message (result string, time-left 0) is broadcast to both players,
and the loop exits (a `finished` step). -/
theorem terminal_transition_spec {α : Type} [DecidableEq α] (p1 p2 : α)
    (st : MatchState) (elapsed : Nat) (recv : Option (α × List Char))
    (tickFires : Bool) (h : totalGameDuration ≤ elapsed) :
    gameStep p1 p2 st elapsed recv tickFires =
      some (StepResult.finished (resultMsg st.p1Score st.p2Score)
        [(p1, mkStateMsg st.p1Move st.p2Move st.p1Score st.p2Score 0
            (some (resultMsg st.p1Score st.p2Score))),
         (p2, mkStateMsg st.p1Move st.p2Move st.p1Score st.p2Score 0
            (some (resultMsg st.p1Score st.p2Score)))]) ∧
    (st.p2Score < st.p1Score →
      resultMsg st.p1Score st.p2Score = "Player 1 wins!") ∧
    (st.p1Score < st.p2Score →
      resultMsg st.p1Score st.p2Score = "Player 2 wins!") ∧
    (st.p1Score = st.p2Score →
      resultMsg st.p1Score st.p2Score = "It\'s a draw!") := by
  refine ⟨?_, ?_, ?_, ?_⟩
  · simp [gameStep, h, broadcastState]
  · intro hlt
    simp [resultMsg, hlt]
  · intro hlt
    simp [resultMsg, hlt, Nat.lt_asymm hlt]
  · intro heq
    simp [resultMsg, heq]

/-- C3 witness: with scores 3 to 1 at the deadline, the step finishes and
broadcasts the terminal message to both players. -/
theorem terminal_transition_witness :
    gameStep 0 1 ⟨Move.Rock, Move.Scissors, 3, 1⟩ totalGameDuration none false =
      some (StepResult.finished (resultMsg 3 1)
        [((0 : Nat), mkStateMsg Move.Rock Move.Scissors 3 1 0 (some (resultMsg 3 1))),
         ((1 : Nat), mkStateMsg Move.Rock Move.Scissors 3 1 0 (some (resultMsg 3 1)))]) :=
  (terminal_transition_spec 0 1 ⟨Move.Rock, Move.Scissors, 3, 1⟩
    totalGameDuration none false (le_refl _)).1

/-- C9: a game-loop iteration never panics (the terminal guard at the top of
the iteration makes the `Duration` subtraction well-defined), and an
intermediate tick broadcast reports duration minus elapsed, rounded down to
whole seconds, to both player addresses. -/
theorem time_left_safety {α : Type} [DecidableEq α] (p1 p2 : α)
    (st : MatchState) (elapsed : Nat) (recv : Option (α × List Char)) :
    (∀ tickFires : Bool,
      (gameStep p1 p2 st elapsed recv tickFires).isSome) ∧
    (elapsed < totalGameDuration →
      durationSub totalGameDuration elapsed = some (totalGameDuration - elapsed)) ∧
    (elapsed < totalGameDuration →
      gameStep p1 p2 st elapsed recv true =
        some (StepResult.running (tickState (recvState p1 p2 st recv))
          (broadcastState (some p1) (some p2)
            (tickState (recvState p1 p2 st recv)).p1Move
            (tickState (recvState p1 p2 st recv)).p2Move
            (tickState (recvState p1 p2 st recv)).p1Score
            (tickState (recvState p1 p2 st recv)).p2Score
            (asSecs (totalGameDuration - elapsed)) none))) := by
  refine ⟨?_, ?_, ?_⟩
  · intro tickFires
    by_cases hg : totalGameDuration ≤ elapsed
    · simp [gameStep, hg]
    · have hle : elapsed ≤ totalGameDuration := le_of_lt (not_le.mp hg)
      cases tickFires <;> simp [gameStep, hg, durationSub, hle]
  · intro h
    simp [durationSub, le_of_lt h]
  · intro h
    have hg : ¬ totalGameDuration ≤ elapsed := not_le.mpr h
    simp [gameStep, hg, durationSub, le_of_lt h]

/-- C5: every broadcast message is the single text line of the template (moves
rendered as their capitalized English names, decimal scores and seconds), and
the result-string suffix is appended exactly on the terminal broadcast: every
send of a `finished` step carries it, every send of a `running` step does not. -/
theorem broadcast_format_spec {α : Type} [DecidableEq α] (p1 p2 : α)
    (st : MatchState) (elapsed : Nat) (recv : Option (α × List Char))
    (tickFires : Bool) :
    (∀ (m1 m2 : Move) (s1 s2 tl : Nat), mkStateMsg m1 m2 s1 s2 tl none =
      "Player 1: " ++ Move.display m1 ++ ", Player 2: " ++ Move.display m2 ++
      ", SCORES => Player 1: " ++ Nat.repr s1 ++ ", Player 2: " ++ Nat.repr s2 ++
      " | Time Left: " ++ Nat.repr tl ++ " sec") ∧
    (∀ (m1 m2 : Move) (s1 s2 tl : Nat) (r : String),
      mkStateMsg m1 m2 s1 s2 tl (some r) =
        mkStateMsg m1 m2 s1 s2 tl none ++ " | " ++ r) ∧
    Move.display Move.Rock = "Rock" ∧
    Move.display Move.Paper = "Paper" ∧
    Move.display Move.Scissors = "Scissors" ∧
    (∀ (res : String) (sends : List (α × String)),
      gameStep p1 p2 st elapsed recv tickFires =
        some (StepResult.finished res sends) →
      ∀ x ∈ sends,
        x.2 = mkStateMsg st.p1Move st.p2Move st.p1Score st.p2Score 0 (some res)) ∧
    (∀ (st1 : MatchState) (sends : List (α × String)),
      gameStep p1 p2 st elapsed recv tickFires =
        some (StepResult.running st1 sends) →
      ∀ x ∈ sends,
        x.2 = mkStateMsg st1.p1Move st1.p2Move st1.p1Score st1.p2Score
          (asSecs (totalGameDuration - elapsed)) none) := by
  refine ⟨?_, ?_, rfl, rfl, rfl, ?_, ?_⟩
  · intro m1 m2 s1 s2 tl
    exact empty_string_append _
  · intro m1 m2 s1 s2 tl r
    rfl
  · intro res sends h x hx
    unfold gameStep at h
    by_cases hg : totalGameDuration ≤ elapsed
    · rw [if_pos hg] at h
      simp only [Option.some.injEq, StepResult.finished.injEq] at h
      obtain ⟨h1, h2⟩ := h
      subst h1
      subst h2
      exact broadcastState_mem_msg _ _ _ _ _ _ _ _ x hx
    · rw [if_neg hg] at h
      have hle : elapsed ≤ totalGameDuration := le_of_lt (not_le.mp hg)
      cases tickFires with
      | false => simp at h
      | true =>
        simp only [if_true, durationSub, if_pos hle] at h
        simp at h
  · intro st1 sends h x hx
    unfold gameStep at h
    by_cases hg : totalGameDuration ≤ elapsed
    · rw [if_pos hg] at h
      simp at h
    · rw [if_neg hg] at h
      have hle : elapsed ≤ totalGameDuration := le_of_lt (not_le.mp hg)
      cases tickFires with
      | false =>
        simp only [Bool.false_eq_true, if_false, Option.some.injEq,
          StepResult.running.injEq] at h
        obtain ⟨h1, h2⟩ := h
        subst h2
        simp at hx
      | true =>
        simp only [if_true, durationSub, if_pos hle, Option.some.injEq,
          StepResult.running.injEq] at h
        obtain ⟨h1, h2⟩ := h
        subst h1
        subst h2
        exact broadcastState_mem_msg _ _ _ _ _ _ _ _ x hx

/-- C10: `broadcast_state` builds the message once and sends those exact bytes
to each known address: every send of one call carries the same string, which
does not depend on the recipients, and dropping either address only drops that
address's send. -/
theorem broadcast_same_bytes {α : Type} (p1Addr p2Addr : Option α)
    (m1 m2 : Move) (s1 s2 tl : Nat) (fm : Option String) :
    (∀ x ∈ broadcastState p1Addr p2Addr m1 m2 s1 s2 tl fm,
      x.2 = mkStateMsg m1 m2 s1 s2 tl fm) ∧
    (∀ x ∈ broadcastState p1Addr p2Addr m1 m2 s1 s2 tl fm,
      ∀ y ∈ broadcastState p1Addr p2Addr m1 m2 s1 s2 tl fm, x.2 = y.2) ∧
    (∀ a b : α, p1Addr = some a → p2Addr = some b →
      broadcastState p1Addr p2Addr m1 m2 s1 s2 tl fm =
        [(a, mkStateMsg m1 m2 s1 s2 tl fm), (b, mkStateMsg m1 m2 s1 s2 tl fm)]) ∧
    (∀ a : α, p1Addr = some a → p2Addr = none →
      broadcastState p1Addr p2Addr m1 m2 s1 s2 tl fm =
        [(a, mkStateMsg m1 m2 s1 s2 tl fm)]) ∧
    (∀ b : α, p1Addr = none → p2Addr = some b →
      broadcastState p1Addr p2Addr m1 m2 s1 s2 tl fm =
        [(b, mkStateMsg m1 m2 s1 s2 tl fm)]) := by
  refine ⟨?_, ?_, ?_, ?_, ?_⟩
  · intro x hx
    exact broadcastState_mem_msg _ _ _ _ _ _ _ _ x hx
  · intro x hx y hy
    rw [broadcastState_mem_msg _ _ _ _ _ _ _ _ x hx,
      broadcastState_mem_msg _ _ _ _ _ _ _ _ y hy]
  · intro a b ha hb
    subst ha
    subst hb
    rfl
  · intro a ha hb
    subst ha
    subst hb
    rfl
  · intro b ha hb
    subst ha
    subst hb
    rfl

/-- C2 witness: Rock against Scissors at score 0-0 gives player 1 the point. -/
theorem tick_scoring_witness :
    scoreTick Move.Rock Move.Scissors 0 0 = (0 + 1, 0) :=
  (tick_scoring_spec 0 1 ⟨Move.Rock, Move.Rock, 0, 0⟩ 0
    Move.Rock Move.Scissors 0 0).1 (by decide)

/-- C7 witness: an "s" payload from player 1's address overwrites exactly
player 1's move. -/
theorem recv_frame_witness :
    processRecv 0 1 ⟨Move.Rock, Move.Rock, 0, 0⟩ 0 ['s'] =
      (⟨Move.Scissors, Move.Rock, 0, 0⟩ : MatchState) :=
  (recv_frame_spec 0 1 ⟨Move.Rock, Move.Rock, 0, 0⟩ 0
    ['s']).2.2.2.2.1 Move.Scissors rfl (by decide)

/-- C8 amended witness: an empty payload from a fresh address claims the open
player-2 slot. -/
theorem matchmaking_registers_witness :
    waitRecvStep (some 5 : Option Nat) none 6 [] = (some 5, some 6) :=
  (matchmaking_registers_any_payload (some 5) none 6 [] [1, 2]).2.2.1
    5 rfl rfl (by decide)

/-- C9 witness: at elapsed 0 the duration subtraction is well-defined. -/
theorem time_left_safety_witness :
    durationSub totalGameDuration 0 = some (totalGameDuration - 0) :=
  (time_left_safety 0 1 ⟨Move.Rock, Move.Rock, 0, 0⟩ 0 none).2.1 (by decide)

/-- C5 witness: the terminal suffix is exactly the base line plus the result. -/
theorem broadcast_format_witness :
    mkStateMsg Move.Rock Move.Paper 1 2 3 (some "Player 1 wins!") =
      mkStateMsg Move.Rock Move.Paper 1 2 3 none ++ " | " ++ "Player 1 wins!" :=
  (broadcast_format_spec 0 1 ⟨Move.Rock, Move.Rock, 0, 0⟩ 0 none
    false).2.1 Move.Rock Move.Paper 1 2 3 "Player 1 wins!"

/-- C10 witness: with both addresses known, the same message goes to both. -/
theorem broadcast_same_bytes_witness :
    broadcastState (some 0 : Option Nat) (some 1) Move.Rock Move.Paper 2 3 5 none =
      [(0, mkStateMsg Move.Rock Move.Paper 2 3 5 none),
       (1, mkStateMsg Move.Rock Move.Paper 2 3 5 none)] :=
  (broadcast_same_bytes (some 0) (some 1) Move.Rock Move.Paper 2 3 5
    none).2.2.1 0 1 rfl rfl

end RPS
